import Mathlib

/-!
Verification of the Generalized Newton (GeN) learning-rate-adaptation core
of `loss-per-learning-rate`.

The data model follows the repository: a parameter vector is an ordered
collection of tensors; the second-order approximation builder packages the
loss, the first directional derivative and half the second directional
derivative as quadratic coefficients `(c0, c1, c2)`; the GeN optimizer state
machine derives the optimal step size `alpha* = -c1 / (2*c2)` and applies the
scaled update.  Scalars are modelled as rationals (exact arithmetic standing
in for the floating-point scalars of the implementation).

The Python modules `second_order_approximation.py`, the GeN optimizer class
and `utils/loss_per_learning_rate.py` are absent from the provided sources
(only their package exports, tests and demo callers are present), so those
operations are modelled from the spec; each such definition carries a
`Modelled from the spec:` doc comment.
-/

namespace GeN

/-- A tensor is modelled as a flat ordered list of rational scalars. -/
abbrev Tensor := List ℚ

/-- A parameter vector: an ordered collection of tensors, one per named
parameter of the model. -/
abbrev ParamVector := List Tensor

/-- Inner product of two tensors (elementwise product, summed). -/
def tensorInner (a b : Tensor) : ℚ :=
  (List.zipWith (· * ·) a b).sum

/-- Inner product of two parameter vectors: per-tensor inner products summed
across all parameter tensors. -/
def innerProduct (g d : ParamVector) : ℚ :=
  (List.zipWith tensorInner g d).sum

/-- Elementwise `a + t * b` on tensors. -/
def tensorAxpy (t : ℚ) (a b : Tensor) : Tensor :=
  List.zipWith (fun u v => u + t * v) a b

/-- Displaced snapshot `p + t * d` of a parameter vector along a direction. -/
def displace (t : ℚ) (p d : ParamVector) : ParamVector :=
  List.zipWith (tensorAxpy t) p d

/-- Elementwise tensor difference. -/
def tensorSub (a b : Tensor) : Tensor :=
  List.zipWith (· - ·) a b

/-- Elementwise parameter-vector difference. -/
def paramSub (a b : ParamVector) : ParamVector :=
  List.zipWith tensorSub a b

/-- Elementwise negation of a parameter vector. -/
def negParam (g : ParamVector) : ParamVector :=
  g.map (fun t => t.map (fun x => -x))

/-- Sum of squared entries across all tensors of a parameter vector. -/
def sumSquares (g : ParamVector) : ℚ :=
  (g.map (fun t => (t.map (fun x => x * x)).sum)).sum

/-- Two parameter vectors have the same shape: same number of tensors and
equal lengths tensor by tensor. -/
def sameShape (p q : ParamVector) : Prop :=
  List.Forall₂ (fun (a b : Tensor) => a.length = b.length) p q

/-- A parameter vector has a nonzero entry. -/
def hasNonzeroEntry (g : ParamVector) : Prop :=
  ∃ t ∈ g, ∃ x ∈ t, x ≠ 0

/-- The quadratic model `approx(t) = c0 + c1*t + c2*t^2` of loss as a
function of step size `t`. -/
def approx (c0 c1 c2 t : ℚ) : ℚ :=
  c0 + c1 * t + c2 * t ^ 2

/-- The closed-form optimal step size `alpha* = -c1 / (2*c2)`. -/
def alphaStar (c1 c2 : ℚ) : ℚ :=
  -c1 / (2 * c2)

/- ### Supporting lemmas on the vector algebra -/

lemma tensorInner_neg_self (a : Tensor) :
    tensorInner a (a.map (fun x => -x)) = -((a.map (fun x => x * x)).sum) := by
  induction a with
  | nil => simp [tensorInner]
  | cons x xs ih =>
    simp only [tensorInner, List.map_cons, List.zipWith_cons_cons, List.sum_cons] at ih ⊢
    rw [ih]
    ring

lemma innerProduct_neg_self (g : ParamVector) :
    innerProduct g (negParam g) = -(sumSquares g) := by
  induction g with
  | nil => simp [innerProduct, negParam, sumSquares]
  | cons t ts ih =>
    simp only [innerProduct, negParam, sumSquares, List.map_cons, List.zipWith_cons_cons,
      List.sum_cons] at ih ⊢
    rw [tensorInner_neg_self t, ih]
    ring

lemma tensorSumSq_nonneg (t : Tensor) : 0 ≤ ((t.map (fun x => x * x)).sum) := by
  apply List.sum_nonneg
  intro y hy
  obtain ⟨x, _, rfl⟩ := List.mem_map.mp hy
  exact mul_self_nonneg x

lemma tensorSumSq_pos (t : Tensor) (h : ∃ x ∈ t, x ≠ 0) :
    0 < ((t.map (fun x => x * x)).sum) := by
  obtain ⟨x, hx, hne⟩ := h
  induction t with
  | nil => simp at hx
  | cons y ys ih =>
    simp only [List.map_cons, List.sum_cons]
    rcases List.mem_cons.mp hx with rfl | hmem
    · have h1 : 0 < x * x := mul_self_pos.mpr hne
      have h2 := tensorSumSq_nonneg ys
      linarith
    · have h1 := mul_self_nonneg y
      have h2 := ih hmem
      linarith

lemma sumSquares_nonneg (g : ParamVector) : 0 ≤ sumSquares g := by
  apply List.sum_nonneg
  intro y hy
  obtain ⟨t, _, rfl⟩ := List.mem_map.mp hy
  exact tensorSumSq_nonneg t

lemma sumSquares_pos (g : ParamVector) (h : hasNonzeroEntry g) : 0 < sumSquares g := by
  obtain ⟨t, ht, hx⟩ := h
  induction g with
  | nil => simp at ht
  | cons s ss ih =>
    simp only [sumSquares, List.map_cons, List.sum_cons]
    rcases List.mem_cons.mp ht with rfl | hmem
    · have h1 := tensorSumSq_pos t hx
      have h2 : 0 ≤ sumSquares ss := sumSquares_nonneg ss
      simp only [sumSquares] at h2
      linarith
    · have h1 := tensorSumSq_nonneg s
      have h2 := ih hmem
      simp only [sumSquares] at h2
      linarith

lemma tensorAxpy_zero (a b : Tensor) (h : a.length = b.length) :
    tensorAxpy 0 a b = a := by
  induction a generalizing b with
  | nil => simp [tensorAxpy]
  | cons x xs ih =>
    cases b with
    | nil => simp at h
    | cons y ys =>
      simp only [tensorAxpy, List.zipWith_cons_cons] at ih ⊢
      have hlen : xs.length = ys.length := by simpa using h
      rw [ih ys hlen]
      simp

lemma displace_zero (p d : ParamVector) (h : sameShape p d) :
    displace 0 p d = p := by
  induction h with
  | nil => simp [displace]
  | cons hab _ ih =>
    simp only [displace, List.zipWith_cons_cons] at ih ⊢
    rw [tensorAxpy_zero _ _ hab, ih]

lemma tensorSub_sub_self (a b : Tensor) (h : a.length = b.length) :
    tensorSub (tensorSub a b) a = b.map (fun x => -x) := by
  induction a generalizing b with
  | nil =>
    cases b with
    | nil => simp [tensorSub]
    | cons y ys => simp at h
  | cons x xs ih =>
    cases b with
    | nil => simp at h
    | cons y ys =>
      simp only [tensorSub, List.zipWith_cons_cons, List.map_cons] at ih ⊢
      have hlen : xs.length = ys.length := by simpa using h
      rw [ih ys hlen]
      simp

/-- The minimizer of the (convex) quadratic model: for `c2 > 0`, the value of
`approx` at `alphaStar c1 c2` is a global minimum. -/
lemma alphaStar_min (c0 c1 c2 t : ℚ) (h : 0 < c2) :
    approx c0 c1 c2 (alphaStar c1 c2) ≤ approx c0 c1 c2 t := by
  have hne : (2 : ℚ) * c2 ≠ 0 := by positivity
  have hdiff : approx c0 c1 c2 t - approx c0 c1 c2 (alphaStar c1 c2)
      = c2 * (t + c1 / (2 * c2)) ^ 2 := by
    unfold approx alphaStar
    field_simp
    ring
  nlinarith [sq_nonneg (t + c1 / (2 * c2)), hdiff]

/- ### The objective and the spec-modelled operations -/

/-- Modelled from the spec: the Functional Objective Evaluator and the
differentiable objective it evaluates (the Python modules implementing
functional evaluation and double differentiation are absent from the provided
sources).  The objective is modelled abstractly by its pure evaluator `eval`
on parameter snapshots together with its Hessian-vector product `hvp` at a
point, the two facilities §4.1 and §4.3 of the spec assume from the
automatic-differentiation engine. -/
structure ObjectiveModel where
  eval : ParamVector → ℚ
  hvp : ParamVector → ParamVector → ParamVector

/-- Modelled from the spec: `second_order_approximation_coeffs`
(`second_order_approximation.py` is absent from the provided sources; §4.3
gives its contract).  `c0` reuses `loss_at_zero` verbatim when supplied and
otherwise evaluates the undisplaced snapshot; `c1` is the inner product of
the loss gradient with the direction, summed across all parameter tensors;
`c2` is half the Hessian quadratic form along the direction. -/
def second_order_approximation_coeffs (m : ObjectiveModel)
    (params grad dir : ParamVector) (lossAtZero : Option ℚ) : ℚ × ℚ × ℚ :=
  (lossAtZero.getD (m.eval params),
   innerProduct grad dir,
   innerProduct dir (m.hvp params dir) / 2)

/-- Phases of the GeN optimizer state machine (§4.4). -/
inductive GeNPhase where
  | Idle : GeNPhase
  | GradientsReady : GeNPhase
  | DirectionComputed : GeNPhase
  | Applied : GeNPhase
deriving DecidableEq, Repr

/-- Error taxonomy of the step pipeline (§7): state-machine misuse and the
explicitly-named curvature-degenerate condition (`c2 ≤ 0` or `c1 = 0`). -/
inductive GeNError where
  | Precondition : GeNError
  | CurvatureDegenerate : GeNError
deriving DecidableEq, Repr

/-- The state of the GeN optimizer: the live parameter vector, the populated
gradients (if any), the candidate update direction (if any) and the phase. -/
structure GeNState where
  params : ParamVector
  grads : Option ParamVector
  direction : Option ParamVector
  phase : GeNPhase
deriving DecidableEq, Repr

/-- The base optimizer boundary (§6): a method applying its native update
rule in place to a given parameter set, consuming the populated gradients. -/
structure BaseOptimizer where
  applyRule : ParamVector → ParamVector → ParamVector

/-- Vanilla SGD at unit step size: `p ← p - g`, so the implied per-unit-step
displacement is the negative gradient. -/
def vanillaSGD : BaseOptimizer :=
  ⟨fun p g => List.zipWith tensorSub p g⟩

/-- Modelled from the spec: `reset_gradients` of the GeN optimizer (§4.4;
the GeN optimizer class is absent from the provided sources).  Clears
accumulated gradients and returns the machine to `Idle`. -/
def reset_gradients (s : GeNState) : GeNState :=
  { s with grads := none, direction := none, phase := GeNPhase.Idle }

/-- The external backward pass populating gradients (performed by the
training loop, outside the core): records the gradients and moves the
machine to `GradientsReady`. -/
def record_gradients (g : ParamVector) (s : GeNState) : GeNState :=
  { s with grads := some g, phase := GeNPhase.GradientsReady }

/-- Modelled from the spec: `compute_param_updates` of the GeN optimizer
(§4.4; the class is absent from the provided sources).  Runs the base
optimizer's rule against a detached working copy and recovers the implied
displacement (copy − original), without mutating the live parameters.
Precondition: gradients populated, phase `GradientsReady`. -/
def compute_param_updates (opt : BaseOptimizer) (s : GeNState) :
    Except GeNError GeNState :=
  match s.phase, s.grads with
  | GeNPhase.GradientsReady, some g =>
    Except.ok { s with
      direction := some (paramSub (opt.applyRule s.params g) s.params),
      phase := GeNPhase.DirectionComputed }
  | _, _ => Except.error GeNError.Precondition

/-- The observability payload returned by a successful step: the quadratic
coefficients and the resolved optimal step size. -/
structure StepResult where
  c0 : ℚ
  c1 : ℚ
  c2 : ℚ
  alpha : ℚ
deriving DecidableEq, Repr

/-- Modelled from the spec: `step` of the GeN optimizer (§4.4; the class is
absent from the provided sources).  Obtains `(c0, c1, c2)` from the
approximation builder; if `c2 ≤ 0` or `c1 = 0` it surfaces the explicit
curvature-degenerate condition; otherwise it applies
`params += alpha* · direction` exactly once and moves to `Applied`.  All
error paths leave the state untouched (coefficient computation works only on
detached snapshots).  Returns the possibly-updated state together with the
outcome. -/
def step (m : ObjectiveModel) (lossAtZero : Option ℚ) (s : GeNState) :
    GeNState × Except GeNError StepResult :=
  match s.phase, s.grads, s.direction with
  | GeNPhase.DirectionComputed, some g, some d =>
    let c := second_order_approximation_coeffs m s.params g d lossAtZero
    if c.2.2 ≤ 0 ∨ c.2.1 = 0 then
      (s, Except.error GeNError.CurvatureDegenerate)
    else
      ({ s with params := displace (alphaStar c.2.1 c.2.2) s.params d,
                phase := GeNPhase.Applied },
       Except.ok ⟨c.1, c.2.1, c.2.2, alphaStar c.2.1 c.2.2⟩)
  | _, _, _ => (s, Except.error GeNError.Precondition)

/-- Modelled from the spec: `loss_per_learning_rate`
(`utils/loss_per_learning_rate.py` is absent from the provided sources; §4.2
gives its contract and the demo `run_demo_untrained` its call shape).  Takes
a plain base optimizer and the populated gradients, derives the update
direction internally by snapshot-apply-diff, and evaluates the objective at
a freshly constructed displaced snapshot for each supplied learning rate.
Returns the losses (parallel to the learning rates) together with the live
parameter vector as it stands when control returns to the caller. -/
def loss_per_learning_rate (m : ObjectiveModel) (opt : BaseOptimizer)
    (params grads : ParamVector) (lrs : List ℚ) : List ℚ × ParamVector :=
  let dir := paramSub (opt.applyRule params grads) params
  (lrs.map (fun t => m.eval (displace t params dir)), params)

/- ### Concrete objective used by the witnesses -/

/-- A concrete objective: loss is the sum of squared parameters and the
Hessian is the identity operator. -/
def idModel : ObjectiveModel :=
  ⟨fun p => sumSquares p, fun _ d => d⟩

/- ### The concrete linear-model case of §8 -/

/-- Loss of the linear model `y = w*x` with squared-error criterion at the
single sample `(x = 2, y = 5)`: `L(w) = (w*2 - 5)^2`. -/
def linLoss (w : ℚ) : ℚ := (w * 2 - 5) ^ 2

/-- The analytic gradient `2*(w*x - y)*x` of `linLoss` at `(x = 2, y = 5)`. -/
def linGrad (w : ℚ) : ℚ := 2 * (w * 2 - 5) * 2

/-- `linGrad` is the exact derivative of `linLoss`: the loss admits an exact
second-order expansion with `linGrad` as the linear coefficient. -/
lemma linGrad_is_derivative (w h : ℚ) :
    linLoss (w + h) = linLoss w + linGrad w * h + 4 * h ^ 2 := by
  unfold linLoss linGrad
  ring

/-- The displacement recovered from vanilla SGD by snapshot-apply-diff is
exactly the negative gradient. -/
lemma vanillaSGD_direction (p g : ParamVector) (h : sameShape p g) :
    paramSub (vanillaSGD.applyRule p g) p = negParam g := by
  induction h with
  | nil => rfl
  | cons hab _ ih =>
    simp only [vanillaSGD, paramSub, negParam, List.zipWith_cons_cons,
      List.map_cons] at ih ⊢
    rw [tensorSub_sub_self _ _ hab]
    exact congrArg _ ih

lemma zip_self_map (f : ℚ → ℚ) (l : List ℚ) :
    List.zip l (l.map f) = l.map (fun t => (t, f t)) := by
  induction l with
  | nil => rfl
  | cons x xs ih => simp only [List.map_cons, List.zip_cons_cons, ih]

/- ### Claim theorems -/

/-- C2: the coefficient `c1` returned by the second-order approximation
builder equals the inner product of the loss gradient with the update
direction, summed across all parameter tensors; moreover, in the concrete
linear-model case (`y = w*x` with scalar `w`, squared-error criterion,
single sample `(x = 2, y = 5)`), the analytic gradient is `2*(w*x - y)*x`
and `c1` equals that gradient times the direction. -/
theorem C2_c1_inner_product (m : ObjectiveModel) (p g d : ParamVector)
    (l : Option ℚ) :
    (second_order_approximation_coeffs m p g d l).2.1 = innerProduct g d ∧
    (∀ w h : ℚ, linLoss (w + h) = linLoss w + linGrad w * h + 4 * h ^ 2) ∧
    ∀ w dv : ℚ,
      (second_order_approximation_coeffs m [[w]] [[linGrad w]] [[dv]] l).2.1
        = linGrad w * dv := by
  refine ⟨rfl, linGrad_is_derivative, ?_⟩
  intro w dv
  simp [second_order_approximation_coeffs, innerProduct, tensorInner]

/-- C3: the coefficient `c0` returned by the second-order approximation
builder equals the loss at the current point: when `loss_at_zero` is
supplied it is reused verbatim, and when omitted `c0` is the Functional
Objective Evaluator's value at the undisplaced snapshot. -/
theorem C3_c0_undisplaced_loss (m : ObjectiveModel) (p g d : ParamVector)
    (l : ℚ) :
    (second_order_approximation_coeffs m p g d (some l)).1 = l ∧
    (second_order_approximation_coeffs m p g d none).1 = m.eval p :=
  ⟨rfl, rfl⟩

/-- C5: when the update direction is the negative gradient (vanilla SGD
descent) and the gradient has a nonzero entry, the coefficient `c1` of the
second-order approximation builder is strictly negative. -/
theorem C5_c1_descent_negative (m : ObjectiveModel) (p g : ParamVector)
    (l : Option ℚ) (h : hasNonzeroEntry g) :
    (second_order_approximation_coeffs m p g (negParam g) l).2.1 < 0 := by
  have h1 : (second_order_approximation_coeffs m p g (negParam g) l).2.1
      = -(sumSquares g) := innerProduct_neg_self g
  rw [h1]
  have h2 := sumSquares_pos g h
  linarith

/-- Witness for C5 at the concrete gradient `[[2]]`. -/
theorem C5_c1_descent_negative_witness :
    hasNonzeroEntry [[(2 : ℚ)]] ∧
    (second_order_approximation_coeffs idModel [[1]] [[(2 : ℚ)]]
        (negParam [[(2 : ℚ)]]) none).2.1 < 0 := by
  have hnz : hasNonzeroEntry [[(2 : ℚ)]] :=
    ⟨[2], by simp, 2, by simp, by norm_num⟩
  exact ⟨hnz, C5_c1_descent_negative idModel [[1]] [[(2 : ℚ)]] none hnz⟩

/-- C8: the directional loss profile operation never mutates the live
parameter vector: every displaced evaluation is built on a freshly
constructed snapshot, and the live parameters returned to the caller are
identical to the ones passed in, for any sequence of step sizes. -/
theorem C8_lplr_never_mutates (m : ObjectiveModel) (opt : BaseOptimizer)
    (p g : ParamVector) (lrs : List ℚ) :
    (loss_per_learning_rate m opt p g lrs).2 = p := rfl

/-- C1: whenever the quadratic coefficients computed by the step pipeline
have `c2 > 0` and `c1 ≠ 0`, the step succeeds and the resolved optimal step
size equals the closed form `alpha* = -c1 / (2*c2)`; it is moreover a global
minimizer of the quadratic model. -/
theorem C1_step_alpha_closed_form (m : ObjectiveModel) (l : Option ℚ)
    (s : GeNState) (g d : ParamVector)
    (hg : s.grads = some g) (hd : s.direction = some d)
    (hph : s.phase = GeNPhase.DirectionComputed)
    (hc2 : 0 < (second_order_approximation_coeffs m s.params g d l).2.2)
    (hc1 : (second_order_approximation_coeffs m s.params g d l).2.1 ≠ 0) :
    ∃ r : StepResult,
      (step m l s).2 = Except.ok r ∧
      r.alpha = -(second_order_approximation_coeffs m s.params g d l).2.1
        / (2 * (second_order_approximation_coeffs m s.params g d l).2.2) ∧
      ∀ t : ℚ, approx r.c0 r.c1 r.c2 r.alpha ≤ approx r.c0 r.c1 r.c2 t := by
  obtain ⟨p, gr, dir, ph⟩ := s
  simp only at hg hd hph hc2 hc1
  subst hg hd hph
  simp only [step]
  rw [if_neg (by push_neg; exact ⟨hc2, hc1⟩)]
  exact ⟨_, rfl, rfl, fun t => alphaStar_min _ _ _ t hc2⟩

/-- Witness for C1 at a concrete state with `c2 = 2 > 0` and `c1 = -4`. -/
theorem C1_step_alpha_closed_form_witness :
    0 < (second_order_approximation_coeffs idModel [[(1 : ℚ)]] [[(2 : ℚ)]]
        [[(-2 : ℚ)]] none).2.2 ∧
    (second_order_approximation_coeffs idModel [[(1 : ℚ)]] [[(2 : ℚ)]]
        [[(-2 : ℚ)]] none).2.1 ≠ 0 ∧
    ∃ r : StepResult,
      (step idModel none
        ⟨[[(1 : ℚ)]], some [[(2 : ℚ)]], some [[(-2 : ℚ)]],
          GeNPhase.DirectionComputed⟩).2 = Except.ok r ∧
      r.alpha = -(second_order_approximation_coeffs idModel [[(1 : ℚ)]]
          [[(2 : ℚ)]] [[(-2 : ℚ)]] none).2.1
        / (2 * (second_order_approximation_coeffs idModel [[(1 : ℚ)]]
          [[(2 : ℚ)]] [[(-2 : ℚ)]] none).2.2) ∧
      ∀ t : ℚ, approx r.c0 r.c1 r.c2 r.alpha ≤ approx r.c0 r.c1 r.c2 t :=
  ⟨by norm_num [second_order_approximation_coeffs, innerProduct, tensorInner,
      idModel],
   by norm_num [second_order_approximation_coeffs, innerProduct, tensorInner,
      idModel],
   C1_step_alpha_closed_form idModel none
      ⟨[[(1 : ℚ)]], some [[(2 : ℚ)]], some [[(-2 : ℚ)]],
        GeNPhase.DirectionComputed⟩
      [[(2 : ℚ)]] [[(-2 : ℚ)]] rfl rfl rfl
      (by norm_num [second_order_approximation_coeffs, innerProduct,
        tensorInner, idModel])
      (by norm_num [second_order_approximation_coeffs, innerProduct,
        tensorInner, idModel])⟩

/-- C4: when the computed coefficients satisfy `c2 ≤ 0` or `c1 = 0`, the
step pipeline surfaces the explicitly-named curvature-degenerate condition,
returns no numeric step size, and leaves the state (in particular the live
parameters) untouched rather than substituting a default learning rate. -/
theorem C4_step_degenerate_surfaced (m : ObjectiveModel) (l : Option ℚ)
    (s : GeNState) (g d : ParamVector)
    (hg : s.grads = some g) (hd : s.direction = some d)
    (hph : s.phase = GeNPhase.DirectionComputed)
    (hdeg : (second_order_approximation_coeffs m s.params g d l).2.2 ≤ 0 ∨
            (second_order_approximation_coeffs m s.params g d l).2.1 = 0) :
    (step m l s).2 = Except.error GeNError.CurvatureDegenerate ∧
    (step m l s).1 = s := by
  obtain ⟨p, gr, dir, ph⟩ := s
  simp only at hg hd hph hdeg
  subst hg hd hph
  simp only [step]
  rw [if_pos hdeg]
  exact ⟨rfl, rfl⟩

/-- Witness for C4 at a concrete state whose gradient is zero, so `c1 = 0`. -/
theorem C4_step_degenerate_surfaced_witness :
    ((second_order_approximation_coeffs idModel [[(1 : ℚ)]] [[(0 : ℚ)]]
        [[(-2 : ℚ)]] none).2.2 ≤ 0 ∨
      (second_order_approximation_coeffs idModel [[(1 : ℚ)]] [[(0 : ℚ)]]
        [[(-2 : ℚ)]] none).2.1 = 0) ∧
    (step idModel none
        ⟨[[(1 : ℚ)]], some [[(0 : ℚ)]], some [[(-2 : ℚ)]],
          GeNPhase.DirectionComputed⟩).2
      = Except.error GeNError.CurvatureDegenerate ∧
    (step idModel none
        ⟨[[(1 : ℚ)]], some [[(0 : ℚ)]], some [[(-2 : ℚ)]],
          GeNPhase.DirectionComputed⟩).1
      = ⟨[[(1 : ℚ)]], some [[(0 : ℚ)]], some [[(-2 : ℚ)]],
          GeNPhase.DirectionComputed⟩ :=
  ⟨by norm_num [second_order_approximation_coeffs, innerProduct, tensorInner,
      idModel],
    C4_step_degenerate_surfaced idModel none
      ⟨[[(1 : ℚ)]], some [[(0 : ℚ)]], some [[(-2 : ℚ)]],
        GeNPhase.DirectionComputed⟩
      [[(0 : ℚ)]] [[(-2 : ℚ)]] rfl rfl rfl
      (by norm_num [second_order_approximation_coeffs, innerProduct,
        tensorInner, idModel])⟩

/-- C6: a step that fails with any error leaves the live parameter vector
identical to its value before the invocation (all-or-nothing atomicity). -/
theorem C6_step_atomic (m : ObjectiveModel) (l : Option ℚ) (s : GeNState)
    (e : GeNError) (h : (step m l s).2 = Except.error e) :
    (step m l s).1.params = s.params := by
  obtain ⟨p, gr, dir, ph⟩ := s
  cases ph <;> cases gr <;> cases dir
  all_goals try rfl
  simp only [step] at h ⊢
  split_ifs at h ⊢
  all_goals simp_all

/-- Witness for C6 at a state in phase `Idle`, where the step fails with a
Precondition error. -/
theorem C6_step_atomic_witness :
    (step idModel none ⟨[[(1 : ℚ)]], none, none, GeNPhase.Idle⟩).2
      = Except.error GeNError.Precondition ∧
    (step idModel none ⟨[[(1 : ℚ)]], none, none, GeNPhase.Idle⟩).1.params
      = [[(1 : ℚ)]] :=
  ⟨rfl,
    C6_step_atomic idModel none ⟨[[(1 : ℚ)]], none, none, GeNPhase.Idle⟩
      GeNError.Precondition rfl⟩

/-- C7: after a successful step (phase `Applied`), calling `step` again
without an intervening `reset_gradients`/`compute_param_updates` cycle fails
with a Precondition error and leaves the live parameters untouched. -/
theorem C7_double_step_precondition (m m2 : ObjectiveModel)
    (l l2 : Option ℚ) (s s2 : GeNState) (r : StepResult)
    (h : step m l s = (s2, Except.ok r)) :
    (step m2 l2 s2).2 = Except.error GeNError.Precondition ∧
    (step m2 l2 s2).1.params = s2.params := by
  obtain ⟨p, gr, dir, ph⟩ := s
  cases ph <;> cases gr <;> cases dir
  all_goals simp only [step] at h
  all_goals try (injection h with h1 h2; exact absurd h2 (by simp))
  split_ifs at h
  · injection h with h1 h2
    exact absurd h2 (by simp)
  · injection h with h1 h2
    subst h1
    exact ⟨rfl, rfl⟩

/-- Witness for C7: a concrete successful step (reaching `Applied`) followed
by a second `step` call that fails with a Precondition error. -/
theorem C7_double_step_precondition_witness :
    (step idModel none
        ⟨[[(-1 : ℚ)]], some [[(2 : ℚ)]], some [[(-2 : ℚ)]],
          GeNPhase.Applied⟩).2 = Except.error GeNError.Precondition ∧
    (step idModel none
        ⟨[[(-1 : ℚ)]], some [[(2 : ℚ)]], some [[(-2 : ℚ)]],
          GeNPhase.Applied⟩).1.params = [[(-1 : ℚ)]] :=
  C7_double_step_precondition idModel idModel none none
    ⟨[[(1 : ℚ)]], some [[(2 : ℚ)]], some [[(-2 : ℚ)]],
      GeNPhase.DirectionComputed⟩
    ⟨[[(-1 : ℚ)]], some [[(2 : ℚ)]], some [[(-2 : ℚ)]], GeNPhase.Applied⟩
    ⟨1, -4, 2, 1⟩ (by
      norm_num [step, second_order_approximation_coeffs, idModel,
        innerProduct, tensorInner, sumSquares, displace, tensorAxpy,
        alphaStar, Prod.ext_iff])

/-- C9: with gradients populated and the GeN-wrapped vanilla SGD optimizer,
after `compute_param_updates` the approximation builder's `c1` at the
recovered direction is exactly the negative of the sum over all parameters
of the elementwise sum of squared gradients. -/
theorem C9_c1_vanilla_sgd_neg_sumsq (m : ObjectiveModel) (s s2 : GeNState)
    (g : ParamVector) (l : Option ℚ)
    (hg : s.grads = some g) (hshape : sameShape s.params g)
    (hcpu : compute_param_updates vanillaSGD s = Except.ok s2) :
    ∃ d : ParamVector, s2.direction = some d ∧
      (second_order_approximation_coeffs m s2.params g d l).2.1
        = -(sumSquares g) := by
  obtain ⟨p, gr, dir, ph⟩ := s
  simp only at hg hshape
  subst hg
  cases ph
  case GradientsReady =>
    simp only [compute_param_updates] at hcpu
    injection hcpu with h1
    subst h1
    refine ⟨_, rfl, ?_⟩
    show innerProduct g (paramSub (vanillaSGD.applyRule p g) p)
      = -(sumSquares g)
    rw [vanillaSGD_direction p g hshape]
    exact innerProduct_neg_self g
  all_goals simp only [compute_param_updates] at hcpu
  all_goals exact Except.noConfusion hcpu

/-- Witness for C9 at the concrete state with parameters `[[1]]` and
gradients `[[2]]`, where the recovered direction is `[[-2]]` and
`c1 = -4`. -/
theorem C9_c1_vanilla_sgd_neg_sumsq_witness :
    ∃ d : ParamVector,
      (⟨[[(1 : ℚ)]], some [[(2 : ℚ)]], some [[(-2 : ℚ)]],
        GeNPhase.DirectionComputed⟩ : GeNState).direction = some d ∧
      (second_order_approximation_coeffs idModel [[(1 : ℚ)]] [[(2 : ℚ)]] d
        none).2.1 = -(sumSquares [[(2 : ℚ)]]) :=
  C9_c1_vanilla_sgd_neg_sumsq idModel
    ⟨[[(1 : ℚ)]], some [[(2 : ℚ)]], none, GeNPhase.GradientsReady⟩
    ⟨[[(1 : ℚ)]], some [[(2 : ℚ)]], some [[(-2 : ℚ)]],
      GeNPhase.DirectionComputed⟩
    [[(2 : ℚ)]] none rfl (List.Forall₂.cons rfl List.Forall₂.nil)
    (by norm_num [compute_param_updates, paramSub, tensorSub, vanillaSGD])

/-- C10: the directional loss profile takes a plain, unwrapped base
optimizer with populated gradients, derives the update direction internally
by snapshot-apply-diff, and returns one loss value per supplied learning
rate; at a learning rate of exactly `0` the returned loss is the undisplaced
objective value. -/
theorem C10_lplr_plain_optimizer (m : ObjectiveModel) (opt : BaseOptimizer)
    (p g : ParamVector) (lrs : List ℚ)
    (hshape : sameShape p (paramSub (opt.applyRule p g) p)) :
    (loss_per_learning_rate m opt p g lrs).1.length = lrs.length ∧
    ∀ pr ∈ List.zip lrs (loss_per_learning_rate m opt p g lrs).1,
      pr.1 = 0 → pr.2 = m.eval p := by
  constructor
  · simp [loss_per_learning_rate]
  · intro pr hpr h0
    rw [show (loss_per_learning_rate m opt p g lrs).1
        = lrs.map
          (fun t => m.eval (displace t p (paramSub (opt.applyRule p g) p)))
        from rfl, zip_self_map] at hpr
    obtain ⟨t, ht, rfl⟩ := List.mem_map.mp hpr
    simp only at h0
    subst h0
    show m.eval (displace 0 p (paramSub (opt.applyRule p g) p)) = m.eval p
    rw [displace_zero p _ hshape]

/-- Witness for C10 with vanilla SGD, parameters `[[1]]`, gradients `[[2]]`
and learning rates `[0, 1]`. -/
theorem C10_lplr_plain_optimizer_witness :
    (loss_per_learning_rate idModel vanillaSGD [[(1 : ℚ)]] [[(2 : ℚ)]]
      [0, 1]).1.length = ([0, 1] : List ℚ).length ∧
    ∀ pr ∈ List.zip ([0, 1] : List ℚ)
        (loss_per_learning_rate idModel vanillaSGD [[(1 : ℚ)]] [[(2 : ℚ)]]
          [0, 1]).1,
      pr.1 = 0 → pr.2 = idModel.eval [[(1 : ℚ)]] :=
  C10_lplr_plain_optimizer idModel vanillaSGD [[(1 : ℚ)]] [[(2 : ℚ)]] [0, 1]
    (by simp [sameShape, paramSub, tensorSub, vanillaSGD])

end GeN

